import Mathlib

/-!
Verification of the local audio preprocessing pipeline (`processAudio` and
`audioBufferToWav`). Samples are modelled as exact rationals; the external
decoder and the OfflineAudioContext renderer are passed in as functions.
-/

namespace BienBanHop

/-- Decoded audio in memory: per-channel sample sequences plus a sample rate,
mirroring the `AudioBuffer` values the pipeline manipulates. -/
structure AudioBuffer where
  sampleRate : ℕ
  channels : List (List ℚ)
deriving DecidableEq

/-- Channel count of a buffer (`buffer.numberOfChannels`). -/
def AudioBuffer.numberOfChannels (b : AudioBuffer) : ℕ := b.channels.length

/-- Frame count of a buffer (`buffer.length`), the length of its first channel
(all channels have equal length by the data-model invariant). -/
def AudioBuffer.length (b : AudioBuffer) : ℕ := (b.channels.headD []).length

/-- The four user-facing processing flags, from `components/Options.tsx`. -/
structure ProcessingOptions where
  convertToMono16kHz : Bool
  noiseReduction : Bool
  normalizeVolume : Bool
  removeSilence : Bool
deriving DecidableEq

/-- Check `Object.values(options).some(v => v)`: at least one flag is set. -/
def needsProcessing (o : ProcessingOptions) : Bool :=
  o.convertToMono16kHz || o.noiseReduction || o.normalizeVolume || o.removeSilence

/-- Clamp of a sample, `Math.max(-1, Math.min(1, sample))`. -/
def clampSample (s : ℚ) : ℚ := max (-1) (min 1 s)

/-- Truncation toward zero, the first half of the JavaScript coercion
performed by the bitwise-or with zero in the encoder. -/
def ratTrunc (q : ℚ) : ℤ := if 0 ≤ q then ⌊q⌋ else ⌈q⌉

/-- Wrap of a truncated value into the signed 32-bit range, the second half of
the JavaScript ToInt32 coercion. -/
def int32Wrap (t : ℤ) : ℤ := (t + 2 ^ 31) % 2 ^ 32 - 2 ^ 31

/-- JavaScript bitwise-or with zero on a fractional value: truncate toward
zero, then wrap into signed 32-bit. -/
def jsToInt32 (q : ℚ) : ℤ := int32Wrap (ratTrunc q)

/-- Per-sample quantization of `audioBufferToWav`:
`sample = Math.max(-1, Math.min(1, x)); (0.5 + sample < 0 ? sample * 32768 : sample * 32767) | 0`. -/
def quantizeSample (s : ℚ) : ℤ :=
  if 1 / 2 + clampSample s < 0 then jsToInt32 (clampSample s * 32768)
  else jsToInt32 (clampSample s * 32767)

/-- Quantizer as the specification words it, clamping then scaling negative
samples by 32768 and non-negative samples by 32767; named for comparison
against the code-derived `quantizeSample`. -/
def specQuantizeSample (s : ℚ) : ℤ :=
  if clampSample s < 0 then jsToInt32 (clampSample s * 32768)
  else jsToInt32 (clampSample s * 32767)

/-- Little-endian bytes of `view.setUint16`. -/
def uint16LE (n : ℕ) : List ℕ := [n % 256, n / 256 % 256]

/-- Little-endian bytes of `view.setUint32`. -/
def uint32LE (n : ℕ) : List ℕ :=
  [n % 256, n / 256 % 256, n / 256 ^ 2 % 256, n / 256 ^ 3 % 256]

/-- Little-endian bytes of `view.setInt16` (two's-complement). -/
def int16LE (v : ℤ) : List ℕ := uint16LE (v % 65536).toNat

/-- Serialization of `audioBufferToWav`: the fixed 44-byte header followed by
the interleaved quantized 16-bit samples, all little-endian. -/
def audioBufferToWav (b : AudioBuffer) : List ℕ :=
  let numOfChan := b.numberOfChannels
  let len := b.length * numOfChan * 2 + 44
  uint32LE 0x46464952 ++ uint32LE (len - 8) ++ uint32LE 0x45564157 ++
    uint32LE 0x20746d66 ++ uint32LE 16 ++ uint16LE 1 ++ uint16LE numOfChan ++
    uint32LE b.sampleRate ++ uint32LE (b.sampleRate * 2 * numOfChan) ++
    uint16LE (numOfChan * 2) ++ uint16LE 16 ++ uint32LE 0x61746164 ++
    uint32LE (len - 44) ++
    (List.range b.length).flatMap (fun off =>
      b.channels.flatMap (fun c => int16LE (quantizeSample (c.getD off 0))))

/-- A sound interval recorded by the silence-removal scan: half-open range of
samples classified as sound (`stop` is the source's `end` field). -/
structure SoundInterval where
  start : ℕ
  stop : ℕ
deriving DecidableEq

/-- Fuelled lookahead loop of the silence scan:
`while (silenceEnd < n && Math.abs(d[silenceEnd]) < θ) silenceEnd++`. -/
def findSilenceEndAux (d : List ℚ) (θ : ℚ) : ℕ → ℕ → ℕ
  | 0, j => j
  | fuel + 1, j =>
    if h : j < d.length then
      if |d.get ⟨j, h⟩| < θ then findSilenceEndAux d θ fuel (j + 1) else j
    else j

/-- End of the contiguous silent run starting at `j` (the source's
`silenceEnd`); the fuel `d.length - j` is exactly enough for the loop. -/
def findSilenceEnd (d : List ℚ) (θ : ℚ) (j : ℕ) : ℕ :=
  findSilenceEndAux d θ (d.length - j) j

/-- Fuelled version of the silence-scan loop of `processAudio`: a left-to-right
scan with state `inSound`/`soundStart`, a bounded lookahead at each candidate
silent run, a cut when the run reaches `minSil` samples, and a final interval
pushed at the buffer end when still in sound. Running out of fuel behaves like
reaching the buffer end; the scan is always started with enough fuel. -/
def scanAux (d : List ℚ) (θ : ℚ) (minSil : ℕ) :
    ℕ → ℕ → Bool → ℕ → List SoundInterval → List SoundInterval
  | 0, _, inSound, soundStart, acc =>
    if inSound then acc ++ [⟨soundStart, d.length⟩] else acc
  | fuel + 1, i, inSound, soundStart, acc =>
    if h : i < d.length then
      if inSound = false ∧ θ < |d.get ⟨i, h⟩| then
        scanAux d θ minSil fuel (i + 1) true i acc
      else if inSound = true ∧ |d.get ⟨i, h⟩| < θ then
        let se := findSilenceEnd d θ i
        if minSil ≤ se - i then
          scanAux d θ minSil fuel se false soundStart (acc ++ [⟨soundStart, i⟩])
        else
          scanAux d θ minSil fuel se true soundStart acc
      else
        scanAux d θ minSil fuel (i + 1) inSound soundStart acc
    else if inSound then acc ++ [⟨soundStart, d.length⟩] else acc

/-- Sound intervals detected by the removeSilence step on channel data `d`
at the buffer's sample rate: threshold 0.01, minimum silent run
`Math.floor(0.3 * sampleRate)` samples. -/
def soundIntervals (rate : ℕ) (d : List ℚ) : List SoundInterval :=
  scanAux d (1 / 100) (3 * rate / 10) (d.length + 1) 0 false 0 []

/-- The removeSilence step: reconstruct the buffer from the detected sound
intervals, inserting `Math.floor(0.1 * sampleRate)` zero samples before and
after every retained segment; fall back to a single-sample silent buffer when
no sound interval was detected. -/
def trimSilence (rate : ℕ) (d : List ℚ) : List ℚ :=
  let paddingSamples := rate / 10
  let ivs := soundIntervals rate d
  if ivs.length > 0 then
    ivs.foldl (fun out iv =>
      out ++ List.replicate paddingSamples 0 ++
        (d.drop iv.start).take (iv.stop - iv.start) ++
        List.replicate paddingSamples 0) []
  else [0]

/-- The noiseReduction step (simple gate): samples with absolute value below
0.02 are scaled to 20% of their amplitude, all others pass unchanged. -/
def noiseGateStage (d : List ℚ) : List ℚ :=
  d.map (fun x => if |x| < 1 / 50 then x * (1 / 5) else x)

/-- Peak absolute sample,
`channelData.reduce((max, val) => Math.max(max, Math.abs(val)), 0)`. -/
def peakAbs (d : List ℚ) : ℚ := d.foldl (fun m v => max m |v|) 0

/-- The normalizeVolume step: when the peak exceeds 0.001, scale every sample
by `0.95 / peak` (the gain-node render); otherwise leave the data unchanged. -/
def normalizeStage (d : List ℚ) : List ℚ :=
  let mx := peakAbs d
  if mx > 1 / 1000 then d.map (fun x => x * (19 / 20 / mx)) else d

/-- Result shape of the `OfflineAudioContext(1, duration * 16000, 16000)`
render: a single-channel buffer at 16 kHz whose samples come from the external
platform renderer, passed in as `render`. -/
def resampleTo16kMono (render : AudioBuffer → List ℚ) (b : AudioBuffer) : AudioBuffer :=
  { sampleRate := 16000, channels := [render b] }

/-- Check guarding step 1:
`processedBuffer.sampleRate === 16000 && processedBuffer.numberOfChannels === 1`. -/
def isStandardFormat (b : AudioBuffer) : Bool :=
  b.sampleRate == 16000 && b.numberOfChannels == 1

/-- The scanned channel, `processedBuffer.getChannelData(0)`. -/
def channelData0 (b : AudioBuffer) : List ℚ := b.channels.headD []

/-- Steps 1-4 of `processAudio` on a successfully decoded buffer: conditional
resample to mono 16 kHz, then the three flag-gated per-sample stages. -/
def pipelineBuffer (render : AudioBuffer → List ℚ) (originalBuffer : AudioBuffer)
    (options : ProcessingOptions) : AudioBuffer :=
  let processedBuffer :=
    if isStandardFormat originalBuffer then originalBuffer
    else resampleTo16kMono render originalBuffer
  let rate := processedBuffer.sampleRate
  let d0 := channelData0 processedBuffer
  let d1 := if options.removeSilence then trimSilence rate d0 else d0
  let d2 := if options.noiseReduction then noiseGateStage d1 else d1
  let d3 := if options.normalizeVolume then normalizeStage d2 else d2
  { sampleRate := rate, channels := [d3] }

/-- An input or output file: a name plus raw bytes. -/
structure AudioFile where
  name : String
  bytes : List ℕ
deriving DecidableEq

/-- Errors `processAudio` can surface: the decode-specific failure thrown when
`decodeAudioData` rejects, and the generic wrapper for any other thrown
value. -/
inductive AudioError where
  | decodeError
  | unexpectedError
deriving DecidableEq

/-- Index of the last dot in a file name,
`file.name.lastIndexOf(".")`, as an option. -/
def lastDotIndex (cs : List Char) : Option ℕ :=
  ((List.range cs.length).filter fun i => cs.getD i ' ' = '.').getLast?

/-- JavaScript `file.name.substring(0, file.name.lastIndexOf(".")) || file.name`. -/
def fileStem (name : String) : String :=
  let cs := name.toList
  let stem :=
    match lastDotIndex cs with
    | none => ""
    | some i => String.mk (cs.take i)
  if stem = "" then name else stem

/-- Output file name, `` `${originalFileName}_processed.wav` ``. -/
def processedFileName (name : String) : String := fileStem name ++ "_processed.wav"

/-- The orchestrator `processAudio`: decode (external, passed as a function),
short-circuit when no flag is set, otherwise run the pipeline stages and
encode the result as a WAV file. The OfflineAudioContext renderer used by the
resample step is the external collaborator `render`. -/
def processAudio (decode : List ℕ → Option AudioBuffer) (render : AudioBuffer → List ℚ)
    (file : AudioFile) (options : ProcessingOptions) : Except AudioError AudioFile :=
  match decode file.bytes with
  | none => .error .decodeError
  | some originalBuffer =>
    if needsProcessing options then
      .ok ⟨processedFileName file.name,
        audioBufferToWav (pipelineBuffer render originalBuffer options)⟩
    else .ok file

/-- Sum of the interval lengths of a scan result. -/
def sumLen (l : List SoundInterval) : ℕ := (l.map fun iv => iv.stop - iv.start).sum

/-- Truncation toward zero stays between any integer bounds of its argument. -/
theorem ratTrunc_bounds (a b : ℤ) (q : ℚ) (hl : (a : ℚ) ≤ q) (hu : q ≤ (b : ℚ)) :
    a ≤ ratTrunc q ∧ ratTrunc q ≤ b := by
  unfold ratTrunc
  split
  · exact ⟨Int.le_floor.mpr hl,
      le_trans (Int.floor_le_floor hu) (le_of_eq (Int.floor_intCast b))⟩
  · exact ⟨le_trans (le_of_eq (Int.ceil_intCast a).symm) (Int.ceil_le_ceil hl),
      Int.ceil_le.mpr hu⟩

/-- The signed 32-bit wrap is the identity on values already in range. -/
theorem int32Wrap_eq_self (t : ℤ) (h1 : -(2 ^ 31) ≤ t) (h2 : t < 2 ^ 31) :
    int32Wrap t = t := by
  unfold int32Wrap
  have h : (t + 2 ^ 31) % 2 ^ 32 = t + 2 ^ 31 := Int.emod_eq_of_lt (by omega) (by omega)
  omega

/-- Clamped samples lie in the unit interval. -/
theorem clampSample_mem (s : ℚ) : -1 ≤ clampSample s ∧ clampSample s ≤ 1 :=
  ⟨le_max_left _ _, max_le (by norm_num) (min_le_left _ _)⟩

/-- The quantizer output fits in the signed 16-bit range. -/
theorem quantizeSample_range (s : ℚ) :
    -32768 ≤ quantizeSample s ∧ quantizeSample s ≤ 32767 := by
  obtain ⟨hc1, hc2⟩ := clampSample_mem s
  unfold quantizeSample
  split
  case isTrue h =>
    have hb := ratTrunc_bounds (-32768) 32767 (clampSample s * 32768)
      (by push_cast; linarith) (by push_cast; linarith)
    unfold jsToInt32
    rw [int32Wrap_eq_self _ (by omega) (by omega)]
    omega
  case isFalse h =>
    have hb := ratTrunc_bounds (-32768) 32767 (clampSample s * 32767)
      (by push_cast; linarith) (by push_cast; linarith)
    unfold jsToInt32
    rw [int32Wrap_eq_self _ (by omega) (by omega)]
    omega

/-- C2 (amended): the encoder clamps each sample to the unit interval and
quantizes with truncation toward zero, scaling by 32768 exactly when the
clamped sample is below -0.5 (the source condition `0.5 + sample < 0`) and by
32767 otherwise — in particular negative samples at or above -0.5 are scaled
by 32767, not 32768 — and the result fits the signed 16-bit range. -/
theorem c2_quantize_threshold (s : ℚ) :
    (clampSample s < -(1 / 2) → quantizeSample s = jsToInt32 (clampSample s * 32768)) ∧
    (-(1 / 2) ≤ clampSample s → quantizeSample s = jsToInt32 (clampSample s * 32767)) ∧
    (-1 ≤ clampSample s ∧ clampSample s ≤ 1) ∧
    (-32768 ≤ quantizeSample s ∧ quantizeSample s ≤ 32767) := by
  have hiff : (1 / 2 + clampSample s < 0) ↔ clampSample s < -(1 / 2) := by
    constructor <;> intro <;> linarith
  refine ⟨?_, ?_, clampSample_mem s, quantizeSample_range s⟩
  · intro hlt
    unfold quantizeSample
    rw [if_pos (hiff.mpr hlt)]
  · intro hge
    unfold quantizeSample
    rw [if_neg (fun hc => absurd (hiff.mp hc) (not_lt.mpr hge))]

/-- C2 witness: at the concrete sample -1/4 the quantizer takes the 32767
branch even though the sample is negative. -/
theorem c2_quantize_threshold_witness :
    -(1 / 2) ≤ clampSample (-(1 / 4)) ∧
      quantizeSample (-(1 / 4)) = jsToInt32 (clampSample (-(1 / 4)) * 32767) :=
  ⟨by norm_num [clampSample], (c2_quantize_threshold (-(1 / 4))).2.1 (by norm_num [clampSample])⟩

/-- C2 counterexample: at sample -1/4 the code quantizes to -8191 (scale
32767, truncation toward zero) while the specification's rule (negative means
scale 32768) would give -8192. -/
theorem c2_counterexample :
    quantizeSample (-(1 / 4)) = -8191 ∧ specQuantizeSample (-(1 / 4)) = -8192 ∧
      quantizeSample (-(1 / 4)) ≠ specQuantizeSample (-(1 / 4)) := by
  have hclamp : clampSample (-(1 / 4)) = -(1 / 4) := by
    rw [clampSample, min_eq_right (by norm_num : -(1 / 4) ≤ (1 : ℚ)),
      max_eq_right (by norm_num : (-1 : ℚ) ≤ -(1 / 4))]
  have hcode : quantizeSample (-(1 / 4)) = -8191 := by
    rw [quantizeSample, hclamp, if_neg (by norm_num)]
    rw [show (-(1 / 4) : ℚ) * 32767 = -(32767 / 4) by norm_num]
    rw [jsToInt32, ratTrunc, if_neg (by norm_num)]
    rw [show (⌈(-(32767 / 4) : ℚ)⌉ : ℤ) = -8191 by
      rw [Int.ceil_eq_iff]
      constructor <;> [push_cast; push_cast] <;> norm_num]
    exact int32Wrap_eq_self _ (by norm_num) (by norm_num)
  have hspec : specQuantizeSample (-(1 / 4)) = -8192 := by
    rw [specQuantizeSample, hclamp, if_pos (by norm_num)]
    rw [show (-(1 / 4) : ℚ) * 32768 = ((-8192 : ℤ) : ℚ) by norm_num]
    rw [jsToInt32, ratTrunc, if_neg (by push_cast; norm_num), Int.ceil_intCast]
    exact int32Wrap_eq_self _ (by norm_num) (by norm_num)
  exact ⟨hcode, hspec, by rw [hcode, hspec]; norm_num⟩

/-- Gate stage output has the same length as its input. -/
theorem noiseGateStage_length (d : List ℚ) : (noiseGateStage d).length = d.length := by
  simp [noiseGateStage]

/-- C8: every noise-gate output sample is the input sample scaled by 0.2 when
the input's absolute value is below the 0.02 threshold and the unchanged input
sample otherwise, so its absolute value never exceeds the input's. -/
theorem c8_noise_gate (d : List ℚ) (i : ℕ) (h : i < d.length) :
    |(noiseGateStage d).get ⟨i, (noiseGateStage_length d).symm ▸ h⟩| ≤ |d.get ⟨i, h⟩| ∧
    (|d.get ⟨i, h⟩| < 1 / 50 →
      (noiseGateStage d).get ⟨i, (noiseGateStage_length d).symm ▸ h⟩ = d.get ⟨i, h⟩ * (1 / 5)) ∧
    (1 / 50 ≤ |d.get ⟨i, h⟩| →
      (noiseGateStage d).get ⟨i, (noiseGateStage_length d).symm ▸ h⟩ = d.get ⟨i, h⟩) := by
  have hget : (noiseGateStage d).get ⟨i, (noiseGateStage_length d).symm ▸ h⟩ =
      if |d.get ⟨i, h⟩| < 1 / 50 then d.get ⟨i, h⟩ * (1 / 5) else d.get ⟨i, h⟩ := by
    simp [noiseGateStage, List.get_eq_getElem]
  rw [hget]
  by_cases hx : |d.get ⟨i, h⟩| < 1 / 50
  · rw [if_pos hx]
    refine ⟨?_, fun _ => rfl, fun hge => absurd hx (not_lt.mpr hge)⟩
    rw [abs_mul, show |(1 : ℚ) / 5| = 1 / 5 by norm_num]
    have := abs_nonneg (d.get ⟨i, h⟩)
    linarith
  · rw [if_neg hx]
    exact ⟨le_refl _, fun hlt => absurd hlt hx, fun _ => rfl⟩

/-- C8 witness: the gate attenuates the concrete sample 0.01 to 0.002. -/
theorem c8_noise_gate_witness :
    |(noiseGateStage [(1 / 100 : ℚ)]).get ⟨0, by decide⟩| ≤ |[(1 / 100 : ℚ)].get ⟨0, by decide⟩| :=
  (c8_noise_gate [(1 / 100 : ℚ)] 0 (by decide)).1

/-- Folding max of absolute values over scaled data scales the fold. -/
theorem foldl_max_abs_map_mul (g : ℚ) (hg : 0 ≤ g) :
    ∀ (d : List ℚ) (a : ℚ),
      (d.map fun x => x * g).foldl (fun m v => max m |v|) (a * g) =
        (d.foldl (fun m v => max m |v|) a) * g := by
  intro d
  induction d with
  | nil => intro a; rfl
  | cons x t ih =>
    intro a
    simp only [List.map_cons, List.foldl_cons]
    rw [show max (a * g) |x * g| = max a |x| * g by
      rw [abs_mul, abs_of_nonneg hg, max_mul_of_nonneg _ _ hg], ih]

/-- The peak of uniformly scaled data is the scaled peak (nonnegative gain). -/
theorem peakAbs_map_mul (g : ℚ) (hg : 0 ≤ g) (d : List ℚ) :
    peakAbs (d.map fun x => x * g) = peakAbs d * g := by
  unfold peakAbs
  nth_rewrite 1 [show (0 : ℚ) = 0 * g by ring]
  rw [foldl_max_abs_map_mul g hg d 0]

/-- C7: when the peak absolute sample exceeds the 0.001 floor, normalization
rescales the buffer so its peak is exactly the 0.95 target (hence within any
floating-point tolerance); at or below the floor the buffer is unchanged. -/
theorem c7_normalize_peak (d : List ℚ) :
    (1 / 1000 < peakAbs d → peakAbs (normalizeStage d) = 19 / 20) ∧
    (peakAbs d ≤ 1 / 1000 → normalizeStage d = d) := by
  constructor
  · intro hmx
    have hpos : 0 < peakAbs d := lt_trans (by norm_num) hmx
    have hg : 0 ≤ 19 / 20 / peakAbs d := by positivity
    unfold normalizeStage
    rw [if_pos hmx, peakAbs_map_mul _ hg, mul_comm, div_mul_cancel₀ _ (ne_of_gt hpos)]
  · intro hle
    unfold normalizeStage
    rw [if_neg (not_lt.mpr hle)]

/-- C7 witness: a half-amplitude one-sample buffer is rescaled to peak 0.95,
and an all-zero buffer is left unchanged. -/
theorem c7_normalize_peak_witness :
    (1 / 1000 : ℚ) < peakAbs [(1 / 2 : ℚ)] ∧
      peakAbs (normalizeStage [(1 / 2 : ℚ)]) = 19 / 20 ∧
      normalizeStage [(0 : ℚ)] = [(0 : ℚ)] := by
  have h1 : (1 / 1000 : ℚ) < peakAbs [(1 / 2 : ℚ)] := by
    simp only [peakAbs, List.foldl_cons, List.foldl_nil]
    rw [abs_of_nonneg (by norm_num : (0 : ℚ) ≤ 1 / 2),
      max_eq_right (by norm_num : (0 : ℚ) ≤ 1 / 2)]
    norm_num
  have h2 : peakAbs [(0 : ℚ)] ≤ 1 / 1000 := by
    simp only [peakAbs, List.foldl_cons, List.foldl_nil, abs_zero, max_self]
    norm_num
  exact ⟨h1, (c7_normalize_peak [(1 / 2 : ℚ)]).1 h1, (c7_normalize_peak [(0 : ℚ)]).2 h2⟩

/-- C9: when the external decoder rejects the input bytes, `processAudio`
surfaces the decode-specific error (a constructor distinct from the internal
failure wrapper) and performs no further stage: the result is exactly that
single error, never a partial output. -/
theorem c9_decode_failure_surfaced (decode : List ℕ → Option AudioBuffer)
    (render : AudioBuffer → List ℚ) (file : AudioFile) (o : ProcessingOptions)
    (h : decode file.bytes = none) :
    processAudio decode render file o = .error .decodeError ∧
      AudioError.decodeError ≠ AudioError.unexpectedError := by
  refine ⟨?_, by decide⟩
  unfold processAudio
  rw [h]

/-- C9 witness: a concrete always-failing decoder yields the decode error. -/
theorem c9_decode_failure_surfaced_witness :
    processAudio (fun _ => none) (fun _ => []) ⟨"a", [0]⟩ ⟨true, false, false, false⟩ =
      .error .decodeError :=
  (c9_decode_failure_surfaced (fun _ => none) (fun _ => []) ⟨"a", [0]⟩
    ⟨true, false, false, false⟩ rfl).1

/-- C10: `processAudio` decodes before testing the all-flags-false
short-circuit — with every flag false it still throws the decode error when
decoding fails, and returns the original file only after a successful
decode. -/
theorem c10_decode_before_shortcircuit (decode : List ℕ → Option AudioBuffer)
    (render : AudioBuffer → List ℚ) (file : AudioFile) :
    (decode file.bytes = none →
      processAudio decode render file ⟨false, false, false, false⟩ = .error .decodeError) ∧
    (∀ b, decode file.bytes = some b →
      processAudio decode render file ⟨false, false, false, false⟩ = .ok file) := by
  constructor
  · intro h
    unfold processAudio
    rw [h]
  · intro b h
    unfold processAudio
    rw [h]
    rfl

/-- C10 witness: with all flags false, a failing decode still errors and a
succeeding decode returns the original file. -/
theorem c10_decode_before_shortcircuit_witness :
    processAudio (fun _ => none) (fun _ => []) ⟨"a", [0]⟩ ⟨false, false, false, false⟩ =
      .error .decodeError ∧
    processAudio (fun _ => some ⟨16000, [[0]]⟩) (fun _ => []) ⟨"a", [0]⟩
      ⟨false, false, false, false⟩ = .ok ⟨"a", [0]⟩ :=
  ⟨(c10_decode_before_shortcircuit (fun _ => none) (fun _ => []) ⟨"a", [0]⟩).1 rfl,
    (c10_decode_before_shortcircuit (fun _ => some ⟨16000, [[0]]⟩) (fun _ => []) ⟨"a", [0]⟩).2
      ⟨16000, [[0]]⟩ rfl⟩

/-- C1 (amended): for every input whose bytes decode successfully, when all
four flags are false `processAudio` returns the original input file
unchanged. -/
theorem c1_identity_after_decode (decode : List ℕ → Option AudioBuffer)
    (render : AudioBuffer → List ℚ) (file : AudioFile) (o : ProcessingOptions)
    (b : AudioBuffer) (hdec : decode file.bytes = some b)
    (hflags : needsProcessing o = false) :
    processAudio decode render file o = .ok file := by
  unfold processAudio
  rw [hdec]
  simp [hflags]

/-- C1 witness: a concrete successful decode with all flags false returns the
input file itself. -/
theorem c1_identity_after_decode_witness :
    needsProcessing ⟨false, false, false, false⟩ = false ∧
      processAudio (fun _ => some ⟨8000, [[1]]⟩) (fun _ => []) ⟨"rec.m4a", [7, 7]⟩
        ⟨false, false, false, false⟩ = .ok ⟨"rec.m4a", [7, 7]⟩ :=
  ⟨rfl, c1_identity_after_decode (fun _ => some ⟨8000, [[1]]⟩) (fun _ => [])
    ⟨"rec.m4a", [7, 7]⟩ ⟨false, false, false, false⟩ ⟨8000, [[1]]⟩ rfl rfl⟩

/-- C1 counterexample: on an input whose bytes fail to decode, all flags
false, `processAudio` produces the decode error rather than returning the
original input. -/
theorem c1_counterexample :
    processAudio (fun _ => none) (fun _ => []) ⟨"a", [0]⟩ ⟨false, false, false, false⟩ =
      .error .decodeError ∧
    (Except.error AudioError.decodeError : Except AudioError AudioFile) ≠
      .ok ⟨"a", [0]⟩ :=
  ⟨rfl, fun hc => Except.noConfusion hc⟩

/-- C3 (amended): the resample-to-mono-16kHz step is gated by
`needsProcessing` (any flag), not by the `convertToMono16kHz` flag alone —
whenever at least one flag is set the pipeline buffer comes out mono at
16 kHz — and when the input is already mono 16 kHz the resample is skipped as
identity, so enabling only `convertToMono16kHz` leaves such a buffer
unchanged. -/
theorem c3_resample_gating (render : AudioBuffer → List ℚ) (b : AudioBuffer)
    (o : ProcessingOptions) (ho : needsProcessing o = true) :
    (pipelineBuffer render b o).sampleRate = 16000 ∧
    (pipelineBuffer render b o).numberOfChannels = 1 ∧
    (isStandardFormat b = true → o = ⟨true, false, false, false⟩ →
      pipelineBuffer render b o = b) := by
  refine ⟨?_, ?_, ?_⟩
  · by_cases hstd : isStandardFormat b = true
    · have hrate : b.sampleRate = 16000 := by
        simp only [isStandardFormat, Bool.and_eq_true, beq_iff_eq] at hstd
        exact hstd.1
      simp [pipelineBuffer, hstd, hrate]
    · simp [pipelineBuffer, hstd, resampleTo16kMono]
  · simp [pipelineBuffer, AudioBuffer.numberOfChannels]
  · intro hstd hop
    subst hop
    simp only [isStandardFormat, Bool.and_eq_true, beq_iff_eq] at hstd
    obtain ⟨hrate, hchan⟩ := hstd
    obtain ⟨r, cs⟩ := b
    simp only [AudioBuffer.numberOfChannels] at hchan
    obtain ⟨c, hc⟩ : ∃ c, cs = [c] := by
      cases cs with
      | nil => simp at hchan
      | cons c t =>
        cases t with
        | nil => exact ⟨c, rfl⟩
        | cons x u => simp at hchan
    subst hc
    simp only at hrate
    subst hrate
    simp [pipelineBuffer, isStandardFormat, AudioBuffer.numberOfChannels, channelData0]

/-- C3 witness: a standard-format mono 16 kHz buffer with only the convert
flag set passes through the resample gate at 16 kHz. -/
theorem c3_resample_gating_witness :
    needsProcessing ⟨true, false, false, false⟩ = true ∧
      (pipelineBuffer (fun _ => []) ⟨16000, [[0]]⟩ ⟨true, false, false, false⟩).sampleRate =
        16000 :=
  ⟨rfl, (c3_resample_gating (fun _ => []) ⟨16000, [[0]]⟩ ⟨true, false, false, false⟩ rfl).1⟩

/-- The lookahead never moves left. -/
theorem le_findSilenceEndAux (d : List ℚ) (θ : ℚ) :
    ∀ (fuel j : ℕ), j ≤ findSilenceEndAux d θ fuel j := by
  intro fuel
  induction fuel with
  | zero => intro j; simp [findSilenceEndAux]
  | succ fuel ih =>
    intro j
    simp only [findSilenceEndAux]
    split
    · split
      · exact le_trans (Nat.le_succ j) (ih (j + 1))
      · exact le_refl j
    · exact le_refl j

/-- The lookahead never moves past the buffer end. -/
theorem findSilenceEndAux_le (d : List ℚ) (θ : ℚ) :
    ∀ (fuel j : ℕ), j ≤ d.length → findSilenceEndAux d θ fuel j ≤ d.length := by
  intro fuel
  induction fuel with
  | zero => intro j hj; simpa [findSilenceEndAux] using hj
  | succ fuel ih =>
    intro j hj
    simp only [findSilenceEndAux]
    split
    case isTrue h =>
      split
      · exact ih (j + 1) h
      · exact hj
    case isFalse h => exact hj

/-- `findSilenceEnd` never moves left. -/
theorem le_findSilenceEnd (d : List ℚ) (θ : ℚ) (j : ℕ) : j ≤ findSilenceEnd d θ j :=
  le_findSilenceEndAux d θ _ j

/-- `findSilenceEnd` stays within the buffer. -/
theorem findSilenceEnd_le (d : List ℚ) (θ : ℚ) (j : ℕ) (h : j ≤ d.length) :
    findSilenceEnd d θ j ≤ d.length :=
  findSilenceEndAux_le d θ _ j h

/-- Interval-length sums split over a pushed interval. -/
theorem sumLen_append (l : List SoundInterval) (iv : SoundInterval) :
    sumLen (l ++ [iv]) = sumLen l + (iv.stop - iv.start) := by
  simp [sumLen]

/-- Invariant of the scan: the total retained length never exceeds the part of
the buffer from the current position (or the open interval's start) on. -/
theorem scanAux_sumLen (d : List ℚ) (θ : ℚ) (m : ℕ) :
    ∀ (fuel i : ℕ) (inSound : Bool) (s : ℕ) (acc : List SoundInterval),
      (inSound = true → s ≤ i) →
      sumLen (scanAux d θ m fuel i inSound s acc) ≤
        sumLen acc + (d.length - cond inSound s i) := by
  intro fuel
  induction fuel with
  | zero =>
    intro i inSound s acc _
    cases inSound with
    | false => simp [scanAux]
    | true => simp [scanAux, sumLen_append]
  | succ fuel ih =>
    intro i inSound s acc hs
    simp only [scanAux]
    split
    case isTrue h =>
      split
      case isTrue h1 =>
        have hrec := ih (i + 1) true i acc (fun _ => Nat.le_succ i)
        simp only [cond] at hrec
        rw [h1.1]
        simp only [cond]
        exact hrec
      case isFalse h1 =>
        split
        case isTrue h2 =>
          have hse : i ≤ findSilenceEnd d θ i := le_findSilenceEnd d θ i
          have hsen : findSilenceEnd d θ i ≤ d.length := findSilenceEnd_le d θ i (le_of_lt h)
          have hsi : s ≤ i := hs h2.1
          rw [h2.1]
          simp only [cond]
          split
          case isTrue h3 =>
            have hrec := ih (findSilenceEnd d θ i) false s (acc ++ [⟨s, i⟩]) (by simp)
            rw [sumLen_append] at hrec
            simp only [cond] at hrec
            omega
          case isFalse h3 =>
            have hrec := ih (findSilenceEnd d θ i) true s acc (fun _ => le_trans hsi hse)
            simp only [cond] at hrec
            exact hrec
        case isFalse h2 =>
          have hrec := ih (i + 1) inSound s acc (fun hb => le_trans (hs hb) (Nat.le_succ i))
          cases inSound with
          | true => simpa only [cond] using hrec
          | false =>
            simp only [cond] at hrec ⊢
            omega
    case isFalse h =>
      cases inSound with
      | false => simp
      | true => simp [sumLen_append]

/-- Invariant of the scan: every recorded interval is nonempty and lies inside
the buffer. -/
theorem scanAux_mem (d : List ℚ) (θ : ℚ) (m : ℕ) :
    ∀ (fuel i : ℕ) (inSound : Bool) (s : ℕ) (acc : List SoundInterval),
      (inSound = true → s < i ∧ s < d.length) →
      (∀ iv ∈ acc, iv.start < iv.stop ∧ iv.start < d.length ∧ iv.stop ≤ d.length) →
      ∀ iv ∈ scanAux d θ m fuel i inSound s acc,
        iv.start < iv.stop ∧ iv.start < d.length ∧ iv.stop ≤ d.length := by
  intro fuel
  induction fuel with
  | zero =>
    intro i inSound s acc hs hacc
    cases inSound with
    | false => simpa [scanAux] using hacc
    | true =>
      simp only [scanAux, if_pos]
      intro iv hiv
      rcases List.mem_append.mp hiv with hl | hr
      · exact hacc iv hl
      · rcases List.mem_singleton.mp hr with rfl
        exact ⟨(hs rfl).2, (hs rfl).2, le_refl _⟩
  | succ fuel ih =>
    intro i inSound s acc hs hacc
    simp only [scanAux]
    split
    case isTrue h =>
      split
      case isTrue h1 =>
        exact ih (i + 1) true i acc (fun _ => ⟨Nat.lt_succ_self i, h⟩) hacc
      case isFalse h1 =>
        split
        case isTrue h2 =>
          have hse : i ≤ findSilenceEnd d θ i := le_findSilenceEnd d θ i
          split
          case isTrue h3 =>
            refine ih (findSilenceEnd d θ i) false s (acc ++ [⟨s, i⟩]) (by simp) ?_
            intro iv hiv
            rcases List.mem_append.mp hiv with hl | hr
            · exact hacc iv hl
            · rcases List.mem_singleton.mp hr with rfl
              exact ⟨(hs h2.1).1, (hs h2.1).2, le_of_lt h⟩
          case isFalse h3 =>
            exact ih (findSilenceEnd d θ i) true s acc
              (fun _ => ⟨lt_of_lt_of_le (hs h2.1).1 hse, (hs h2.1).2⟩) hacc
        case isFalse h2 =>
          exact ih (i + 1) inSound s acc
            (fun hb => ⟨lt_trans (hs hb).1 (Nat.lt_succ_self i), (hs hb).2⟩) hacc
    case isFalse h =>
      cases inSound with
      | false => simpa using hacc
      | true =>
        simp only [if_pos]
        intro iv hiv
        rcases List.mem_append.mp hiv with hl | hr
        · exact hacc iv hl
        · rcases List.mem_singleton.mp hr with rfl
          exact ⟨(hs rfl).2, (hs rfl).2, le_refl _⟩

/-- When no sample ever exceeds the threshold the scan records nothing. -/
theorem scanAux_all_silent (d : List ℚ) (θ : ℚ) (m : ℕ)
    (hd : ∀ (j : ℕ) (hj : j < d.length), ¬ θ < |d.get ⟨j, hj⟩|) :
    ∀ (fuel i s : ℕ) (acc : List SoundInterval), scanAux d θ m fuel i false s acc = acc := by
  intro fuel
  induction fuel with
  | zero => intro i s acc; simp [scanAux]
  | succ fuel ih =>
    intro i s acc
    simp only [scanAux]
    split
    case isTrue h =>
      rw [if_neg (fun hc => hd i h hc.2), if_neg (by simp)]
      exact ih (i + 1) s acc
    case isFalse h => simp

/-- While in sound, if every silent run from any silent sample is shorter than
the minimum, the scan never cuts and closes the open interval at the buffer
end. -/
theorem scanAux_inSound_short_runs (d : List ℚ) (θ : ℚ) (m : ℕ)
    (hq : ∀ (j : ℕ) (hj : j < d.length), |d.get ⟨j, hj⟩| < θ → findSilenceEnd d θ j - j < m) :
    ∀ (fuel i s : ℕ) (acc : List SoundInterval),
      scanAux d θ m fuel i true s acc = acc ++ [⟨s, d.length⟩] := by
  intro fuel
  induction fuel with
  | zero => intro i s acc; simp [scanAux]
  | succ fuel ih =>
    intro i s acc
    simp only [scanAux]
    split
    case isTrue h =>
      rw [if_neg (by simp)]
      by_cases hx : |d.get ⟨i, h⟩| < θ
      · rw [if_pos ⟨trivial, hx⟩, if_neg (by have := hq i h hx; omega)]
        exact ih (findSilenceEnd d θ i) s acc
      · rw [if_neg (fun hc => hx hc.2)]
        exact ih (i + 1) s acc
    case isFalse h => simp

/-- From silence, with `f` the first sample above the threshold and no
qualifying silent run anywhere, the whole scan records exactly the interval
from `f` to the buffer end. -/
theorem scanAux_from_silence (d : List ℚ) (θ : ℚ) (m : ℕ) (f : ℕ) (hf : f < d.length)
    (hfs : θ < |d.get ⟨f, hf⟩|)
    (hpre : ∀ (j : ℕ) (hj : j < d.length), j < f → ¬ θ < |d.get ⟨j, hj⟩|)
    (hq : ∀ (j : ℕ) (hj : j < d.length), |d.get ⟨j, hj⟩| < θ → findSilenceEnd d θ j - j < m) :
    ∀ (fuel i s : ℕ) (acc : List SoundInterval), i ≤ f → d.length + 1 ≤ fuel + i →
      scanAux d θ m fuel i false s acc = acc ++ [⟨f, d.length⟩] := by
  intro fuel
  induction fuel with
  | zero =>
    intro i s acc hif hfuel
    exact absurd hfuel (by omega)
  | succ fuel ih =>
    intro i s acc hif hfuel
    have h : i < d.length := lt_of_le_of_lt hif hf
    simp only [scanAux]
    rw [dif_pos h]
    by_cases hif2 : i = f
    · subst hif2
      rw [if_pos ⟨trivial, hfs⟩]
      exact scanAux_inSound_short_runs d θ m hq fuel (i + 1) i acc
    · have hilt : i < f := lt_of_le_of_ne hif hif2
      rw [if_neg (fun hc => hpre i h hilt hc.2), if_neg (by simp)]
      exact ih (i + 1) s acc hilt (by omega)

/-- Length of the reconstruction fold: the initial length plus, per interval,
twice the padding plus the retained segment's length. -/
theorem trim_foldl_length (d : List ℚ) (pad : ℕ) :
    ∀ (l : List SoundInterval) (init : List ℚ),
      (l.foldl (fun out iv =>
          out ++ List.replicate pad 0 ++ (d.drop iv.start).take (iv.stop - iv.start) ++
            List.replicate pad 0) init).length =
        init.length + (l.map fun iv =>
          2 * pad + ((d.drop iv.start).take (iv.stop - iv.start)).length).sum := by
  intro l
  induction l with
  | nil => intro init; simp
  | cons iv t ih =>
    intro init
    simp only [List.foldl_cons, List.map_cons, List.sum_cons]
    rw [ih]
    simp only [List.length_append, List.length_replicate]
    omega

/-- Per-interval constant in the reconstruction sum split off. -/
theorem sum_map_two_pad_add (pad : ℕ) :
    ∀ (l : List SoundInterval),
      (l.map fun iv => 2 * pad + (iv.stop - iv.start)).sum = 2 * pad * l.length + sumLen l := by
  intro l
  induction l with
  | nil => simp [sumLen]
  | cons iv t ih =>
    simp only [List.map_cons, List.sum_cons, List.length_cons, sumLen] at ih ⊢
    rw [Nat.mul_succ]
    omega

/-- The total retained length of the detected intervals is at most the buffer
length. -/
theorem sumLen_soundIntervals_le (rate : ℕ) (d : List ℚ) :
    sumLen (soundIntervals rate d) ≤ d.length := by
  have h := scanAux_sumLen d (1 / 100) (3 * rate / 10) (d.length + 1) 0 false 0 [] (by simp)
  simpa [soundIntervals, sumLen] using h

/-- General single-interval case of the trimmer: when the buffer has a first
sound sample `f` and no silent run anywhere reaches the minimum length, the
scan records exactly one interval from `f` to the end and the reconstruction
is padding, the input from `f` on, padding. -/
theorem trimSilence_single_interval (rate : ℕ) (d : List ℚ) (f : ℕ) (hf : f < d.length)
    (hfs : (1 / 100 : ℚ) < |d.get ⟨f, hf⟩|)
    (hpre : ∀ (j : ℕ) (hj : j < d.length), j < f → ¬ (1 / 100 : ℚ) < |d.get ⟨j, hj⟩|)
    (hq : ∀ (j : ℕ) (hj : j < d.length), |d.get ⟨j, hj⟩| < 1 / 100 →
      findSilenceEnd d (1 / 100) j - j < 3 * rate / 10) :
    trimSilence rate d =
      List.replicate (rate / 10) 0 ++ d.drop f ++ List.replicate (rate / 10) 0 := by
  have hscan : soundIntervals rate d = [⟨f, d.length⟩] := by
    rw [soundIntervals,
      scanAux_from_silence d (1 / 100) (3 * rate / 10) f hf hfs hpre hq (d.length + 1) 0 0 []
        (Nat.zero_le f) (by omega)]
    rfl
  simp only [trimSilence, hscan]
  rw [if_pos (by simp)]
  simp only [List.foldl_cons, List.foldl_nil, List.nil_append]
  rw [List.take_of_length_le (le_of_eq (List.length_drop f d))]

/-- C4 (amended): for every mono buffer with a first sound sample `f` and no
qualifying silent run (every silent run is shorter than the minimum-silence
sample count), the remove-silence stage preserves the samples from `f` to the
end exactly, but drops the sub-threshold samples before `f` and adds
`paddingSamples` zeros at both ends — it is not the unchanged input. -/
theorem c4_trim_no_qualifying_run (rate : ℕ) (d : List ℚ) (f : ℕ) (hf : f < d.length)
    (hfs : (1 / 100 : ℚ) < |d.get ⟨f, hf⟩|)
    (hpre : ∀ (j : ℕ) (hj : j < d.length), j < f → ¬ (1 / 100 : ℚ) < |d.get ⟨j, hj⟩|)
    (hq : ∀ (j : ℕ) (hj : j < d.length), |d.get ⟨j, hj⟩| < 1 / 100 →
      findSilenceEnd d (1 / 100) j - j < 3 * rate / 10) :
    trimSilence rate d =
      List.replicate (rate / 10) 0 ++ d.drop f ++ List.replicate (rate / 10) 0 :=
  trimSilence_single_interval rate d f hf hfs hpre hq

/-- C4 witness: at rate 20 a one-sample sound buffer comes back with two
padding zeros on each side. -/
theorem c4_trim_no_qualifying_run_witness :
    trimSilence 20 [(1 : ℚ)] =
      List.replicate (20 / 10) 0 ++ List.drop 0 [(1 : ℚ)] ++ List.replicate (20 / 10) 0 :=
  c4_trim_no_qualifying_run 20 [(1 : ℚ)] 0 (by norm_num) (by norm_num [List.get])
    (fun j _ hj0 => absurd hj0 (Nat.not_lt_zero j))
    (by
      intro j hj habs
      have hj1 : j = 0 := by simpa using hj
      subst hj1
      norm_num [List.get] at habs)

/-- C4 counterexample: the buffer `[1]` (one sound sample, no silent run at
all) satisfies the claim's hypotheses, yet the remove-silence stage at
16 kHz returns a 3201-sample buffer, not the unchanged one-sample input. -/
theorem c4_counterexample :
    ((1 / 100 : ℚ) < |(1 : ℚ)|) ∧ (∀ x ∈ [(1 : ℚ)], ¬ |x| < 1 / 100) ∧
      (trimSilence 16000 [(1 : ℚ)]).length = 3201 ∧
      trimSilence 16000 [(1 : ℚ)] ≠ [(1 : ℚ)] := by
  have heq := trimSilence_single_interval 16000 [(1 : ℚ)] 0 (by norm_num)
    (by norm_num [List.get]) (fun j _ hj0 => absurd hj0 (Nat.not_lt_zero j))
    (by
      intro j hj habs
      have hj1 : j = 0 := by simpa using hj
      subst hj1
      norm_num [List.get] at habs)
  have hlen : (trimSilence 16000 [(1 : ℚ)]).length = 3201 := by
    rw [heq, List.length_append, List.length_append, List.length_replicate,
      List.drop_zero]
    norm_num
  refine ⟨by norm_num, ?_, hlen, ?_⟩
  · intro x hx
    rcases List.mem_singleton.mp hx with rfl
    norm_num
  · intro hc
    have hcl := congrArg List.length hc
    rw [hlen] at hcl
    simp at hcl

/-- C5 (amended): the remove-silence output length is at most the input length
plus twice the padding per detected sound interval; when no interval is
detected the output is the single-sample silent buffer. The claimed plain
bound (output ≤ input) fails because of the inserted padding. -/
theorem c5_trim_length_bound (rate : ℕ) (d : List ℚ) :
    (soundIntervals rate d ≠ [] →
      (trimSilence rate d).length ≤
        d.length + 2 * (rate / 10) * (soundIntervals rate d).length) ∧
    (soundIntervals rate d = [] → trimSilence rate d = [0]) := by
  constructor
  · intro hne
    have hlen0 : 0 < (soundIntervals rate d).length := List.length_pos.mpr hne
    simp only [trimSilence]
    rw [if_pos hlen0, trim_foldl_length]
    simp only [List.length_nil, Nat.zero_add]
    have hmono : ((soundIntervals rate d).map fun iv => 2 * (rate / 10) +
        ((d.drop iv.start).take (iv.stop - iv.start)).length).sum ≤
        ((soundIntervals rate d).map fun iv => 2 * (rate / 10) + (iv.stop - iv.start)).sum := by
      apply List.sum_le_sum
      intro iv _
      have hta : ((d.drop iv.start).take (iv.stop - iv.start)).length ≤ iv.stop - iv.start := by
        rw [List.length_take]
        exact min_le_left _ _
      omega
    rw [sum_map_two_pad_add] at hmono
    calc ((soundIntervals rate d).map fun iv => 2 * (rate / 10) +
            ((d.drop iv.start).take (iv.stop - iv.start)).length).sum ≤
          2 * (rate / 10) * (soundIntervals rate d).length + sumLen (soundIntervals rate d) :=
        hmono
      _ ≤ 2 * (rate / 10) * (soundIntervals rate d).length + d.length :=
        Nat.add_le_add_left (sumLen_soundIntervals_le rate d) _
      _ = d.length + 2 * (rate / 10) * (soundIntervals rate d).length := Nat.add_comm _ _
  · intro he
    simp [trimSilence, he]

/-- Evaluation of the lookahead on the three-sample example: the silent run
starting at index 0 ends at index 1. -/
theorem findSilenceEnd_example : findSilenceEnd [(0 : ℚ), 1, 1] (1 / 100) 0 = 1 := by
  norm_num [findSilenceEnd, findSilenceEndAux, List.get]

/-- Scan result on `[0, 1, 1]`: one sound interval from index 1 to the end. -/
theorem soundIntervals_example : soundIntervals 16000 [(0 : ℚ), 1, 1] = [⟨1, 3⟩] := by
  have h := scanAux_from_silence [(0 : ℚ), 1, 1] (1 / 100) (3 * 16000 / 10) 1 (by norm_num)
    (by norm_num [List.get])
    (by
      intro j hj hj1
      have hj0 : j = 0 := by omega
      subst hj0
      norm_num [List.get])
    (by
      intro j hj habs
      have hj3 : j < 3 := by simpa using hj
      interval_cases j
      · rw [findSilenceEnd_example]
        norm_num
      · norm_num [List.get] at habs
      · norm_num [List.get] at habs)
    ([(0 : ℚ), 1, 1].length + 1) 0 0 [] (by omega) (by omega)
  simpa [soundIntervals] using h

/-- C5 witness: the three-sample buffer `[0, 1, 1]` has a detected interval
and its trimmed length satisfies the padded bound. -/
theorem c5_trim_length_bound_witness :
    soundIntervals 16000 [(0 : ℚ), 1, 1] ≠ [] ∧
      (trimSilence 16000 [(0 : ℚ), 1, 1]).length ≤
        ([(0 : ℚ), 1, 1] : List ℚ).length +
          2 * (16000 / 10) * (soundIntervals 16000 [(0 : ℚ), 1, 1]).length := by
  have hne : soundIntervals 16000 [(0 : ℚ), 1, 1] ≠ [] := by
    rw [soundIntervals_example]
    simp
  exact ⟨hne, (c5_trim_length_bound 16000 [(0 : ℚ), 1, 1]).1 hne⟩

/-- C5 counterexample: `[0, 1, 1]` contains a silent sample, yet the
remove-silence stage at 16 kHz outputs 3202 samples — more than the 3-sample
input, because each retained interval gains 1600 padding zeros per side. -/
theorem c5_counterexample :
    (|(0 : ℚ)| < 1 / 100) ∧ ((0 : ℚ) ∈ [(0 : ℚ), 1, 1]) ∧
      (trimSilence 16000 [(0 : ℚ), 1, 1]).length = 3202 ∧
      ¬ (trimSilence 16000 [(0 : ℚ), 1, 1]).length ≤ ([(0 : ℚ), 1, 1] : List ℚ).length := by
  have heq := trimSilence_single_interval 16000 [(0 : ℚ), 1, 1] 1 (by norm_num)
    (by norm_num [List.get])
    (by
      intro j hj hj1
      have hj0 : j = 0 := by omega
      subst hj0
      norm_num [List.get])
    (by
      intro j hj habs
      have hj3 : j < 3 := by simpa using hj
      interval_cases j
      · rw [findSilenceEnd_example]
        norm_num
      · norm_num [List.get] at habs
      · norm_num [List.get] at habs)
  have hlen : (trimSilence 16000 [(0 : ℚ), 1, 1]).length = 3202 := by
    rw [heq, List.length_append, List.length_append, List.length_replicate,
      List.length_drop]
    norm_num
  refine ⟨by norm_num, by simp, hlen, ?_⟩
  rw [hlen]
  simp

/-- C6: the remove-silence stage never outputs an empty buffer — its output
always has at least one sample — and on a buffer with no sample above the
threshold (including the empty buffer) it outputs exactly the single-sample
silent buffer. -/
theorem c6_trim_never_empty (rate : ℕ) (d : List ℚ) :
    1 ≤ (trimSilence rate d).length ∧
    ((∀ (j : ℕ) (hj : j < d.length), ¬ (1 / 100 : ℚ) < |d.get ⟨j, hj⟩|) →
      trimSilence rate d = [0]) := by
  constructor
  · rcases hiv : soundIntervals rate d with _ | ⟨iv, t⟩
    · simp [trimSilence, hiv]
    · have h0 : iv ∈ soundIntervals rate d := by
        rw [hiv]
        exact List.mem_cons_self _ _
      have hmem : iv.start < iv.stop ∧ iv.start < d.length ∧ iv.stop ≤ d.length :=
        scanAux_mem d (1 / 100) (3 * rate / 10) (d.length + 1) 0 false 0 []
          (by simp) (by simp) iv h0
      simp only [trimSilence, hiv]
      rw [if_pos (by simp), trim_foldl_length]
      simp only [List.map_cons, List.sum_cons, List.length_nil]
      have h1 : 1 ≤ ((d.drop iv.start).take (iv.stop - iv.start)).length := by
        rw [List.length_take, List.length_drop]
        omega
      omega
  · intro hsil
    have hz : soundIntervals rate d = [] := by
      rw [soundIntervals]
      exact scanAux_all_silent d (1 / 100) (3 * rate / 10) hsil (d.length + 1) 0 0 []
    simp [trimSilence, hz]

/-- C6 witness: the all-silent one-sample buffer maps to the single-sample
silent buffer without any failure. -/
theorem c6_trim_never_empty_witness :
    1 ≤ (trimSilence 16000 [(0 : ℚ)]).length ∧ trimSilence 16000 [(0 : ℚ)] = [0] := by
  refine ⟨(c6_trim_never_empty 16000 [(0 : ℚ)]).1, (c6_trim_never_empty 16000 [(0 : ℚ)]).2 ?_⟩
  intro j hj
  have hj1 : j = 0 := by simpa using hj
  subst hj1
  norm_num [List.get]

/-- C3 counterexample: a stereo 44100 Hz buffer, with only the noise-reduction
flag enabled, is nevertheless resampled — the output sample rate is 16000, not
the input's 44100, and the channel count drops from 2 to 1. -/
theorem c3_counterexample :
    (ProcessingOptions.mk false true false false).convertToMono16kHz = false ∧
    (pipelineBuffer (fun _ => [1 / 2]) ⟨44100, [[1 / 2], [1 / 2]]⟩
      ⟨false, true, false, false⟩).sampleRate = 16000 ∧
    (AudioBuffer.mk 44100 [[1 / 2], [1 / 2]]).sampleRate = 44100 ∧
    (pipelineBuffer (fun _ => [1 / 2]) ⟨44100, [[1 / 2], [1 / 2]]⟩
      ⟨false, true, false, false⟩).numberOfChannels = 1 ∧
    (AudioBuffer.mk 44100 [[1 / 2], [1 / 2]]).numberOfChannels = 2 := by
  refine ⟨rfl, by decide, rfl, by decide, rfl⟩

end BienBanHop
